import Mathlib

/-!
Verification of the rolling-returns report generator (`rolling_returns.py`).

The development shallowly embeds the program's core:
calendar dates and the reference-window computation (`monthly_rolling_return`
lines 67-69), NAV-series construction (`get_nav_data`), the as-of lookup
(`last_nav_on_or_before`), the annualized rolling-return calculator
(`monthly_rolling_return`), and the orchestration loop (`build_results`).

Modelling conventions:
* Python `datetime.date` values are `Date` records of integers; Python date
  comparison (lexicographic on year/month/day, identical to ordinal order on
  the valid dates Python can construct) becomes `dateLe`/`dateLt`, and
  `(d2 - d1).days` becomes `toOrdinal d2 - toOrdinal d1` with `toOrdinal`
  the days-since-0001-01-01 count used by `datetime.date.toordinal`.
* float NAVs are modelled as rationals; `pd.to_numeric(..., errors="coerce")`
  and `pd.to_datetime(..., errors="coerce")` outcomes are carried on raw
  records as `Option` fields (`none` for a value the subsequent
  `dropna(subset=["date", "nav"])` removes, i.e. NaT/NaN).
* `requests.get` plus the HTTP-status/JSON handling of `get_nav_data` is the
  abstract fetch collaborator `String → Except Unit (List RawRec)`;
  `dt.date.today()` is the run's current date, passed as a parameter.
* `df.sort_values("date")` becomes an insertion sort by date: like the
  pandas sort it returns some permutation of the rows ordered by date
  (the tie order among equal dates is unspecified in the source).
* the IEEE-754 doubles of the NAV arithmetic are modelled at two levels:
  the claims about the value and shape of results use exact rationals, and
  the claim about finiteness of results uses `PyFloat` — a double is finite
  (carrying its exact rational value), `+inf`, `-inf` or `NaN`, arithmetic
  is exact within the double range, overflows past `DBL_MAX` to the signed
  infinity, and propagates infinities and NaN as IEEE arithmetic does.
  Rounding inside the finite range is not modelled; it does not affect
  whether a result is finite, infinite or NaN on the paths at issue.
-/

/-- A calendar date as `datetime.date` stores it: year, month, day. -/
structure Date where
  year : Int
  month : Int
  day : Int
deriving DecidableEq

/-- Gregorian leap-year rule, as in `calendar.isleap` / `datetime`. -/
def isLeap (y : Int) : Bool :=
  (y % 4 == 0 && y % 100 != 0) || y % 400 == 0

/-- Days in a month, given whether the year is leap. -/
def daysInMonthB (leap : Bool) (m : Int) : Int :=
  if m = 2 then (if leap then 29 else 28)
  else if m = 4 ∨ m = 6 ∨ m = 9 ∨ m = 11 then 30
  else 31

/-- Days in month `m` of year `y`. -/
def daysInMonth (y m : Int) : Int := daysInMonthB (isLeap y) m

/-- Days in the months strictly before month `m` (CPython `_DAYS_BEFORE_MONTH`,
plus the leap day once past February). -/
def daysBeforeMonth (leap : Bool) (m : Int) : Int :=
  let l : Int := if leap then 1 else 0
  if m ≤ 1 then 0
  else if m = 2 then 31
  else if m = 3 then 59 + l
  else if m = 4 then 90 + l
  else if m = 5 then 120 + l
  else if m = 6 then 151 + l
  else if m = 7 then 181 + l
  else if m = 8 then 212 + l
  else if m = 9 then 243 + l
  else if m = 10 then 273 + l
  else if m = 11 then 304 + l
  else if m = 12 then 334 + l
  else 365 + l

/-- Day count with 0001-01-01 as day 1, as computed by
`datetime.date.toordinal` (CPython `_ymd2ord`). -/
def toOrdinal (d : Date) : Int :=
  365 * (d.year - 1) + (d.year - 1) / 4 - (d.year - 1) / 100 + (d.year - 1) / 400
    + daysBeforeMonth (isLeap d.year) d.month + d.day

/-- Python date `≤`: lexicographic on (year, month, day). -/
def dateLe (a b : Date) : Bool :=
  a.year < b.year
  || (a.year == b.year && (a.month < b.month
      || (a.month == b.month && a.day ≤ b.day)))

/-- Python date `<`: lexicographic on (year, month, day). -/
def dateLt (a b : Date) : Bool :=
  a.year < b.year
  || (a.year == b.year && (a.month < b.month
      || (a.month == b.month && a.day < b.day)))

/-- The dates `datetime.date` can actually represent (a constructed Python
date always satisfies this). -/
def Date.Valid (d : Date) : Prop :=
  1 ≤ d.month ∧ d.month ≤ 12 ∧ 1 ≤ d.day ∧ d.day ≤ daysInMonth d.year d.month

instance (d : Date) : Decidable d.Valid := by
  unfold Date.Valid; infer_instance

/-- Python `d.replace(day=n)`. -/
def replaceDay (d : Date) (n : Int) : Date :=
  ⟨d.year, d.month, n⟩

/-- Python `d - datetime.timedelta(days=1)` expressed on the calendar fields
(equal to Python's ordinal-based subtraction on every valid date). -/
def predDay (d : Date) : Date :=
  if 1 < d.day then ⟨d.year, d.month, d.day - 1⟩
  else if 1 < d.month then ⟨d.year, d.month - 1, daysInMonth d.year (d.month - 1)⟩
  else ⟨d.year - 1, 12, 31⟩

/-- Line 68 of the source:
`last_day_prev_month = today.replace(day=1) - dt.timedelta(days=1)`
(line 68 of the source). -/
def lastDayPrevMonth (today : Date) : Date :=
  predDay (replaceDay today 1)

/-- Line 69 of the source: `last_day_two_months_ago =
last_day_prev_month.replace(day=1) - dt.timedelta(days=1)`. -/
def lastDayTwoMonthsAgo (today : Date) : Date :=
  predDay (replaceDay (lastDayPrevMonth today) 1)

/-- The reference window of a run: (start, end) as derived from the current
date by lines 67-69 of the source. -/
def refWindow (today : Date) : Date × Date :=
  (lastDayTwoMonthsAgo today, lastDayPrevMonth today)

/-- Every month has between 28 and 31 days. -/
theorem daysInMonth_bounds (y m : Int) :
    28 ≤ daysInMonth y m ∧ daysInMonth y m ≤ 31 := by
  unfold daysInMonth daysInMonthB
  split
  · split <;> omega
  · split <;> omega

/-- Subtracting one day from the first of a month lands on the last day of
the preceding month (wrapping the year in January). -/
theorem predDay_day_one (y m : Int) :
    predDay ⟨y, m, 1⟩
      = if 1 < m then ⟨y, m - 1, daysInMonth y (m - 1)⟩ else ⟨y - 1, 12, 31⟩ := by
  unfold predDay
  rw [if_neg (by simp)]

/-- Closed form of `lastDayPrevMonth`. -/
theorem lastDayPrevMonth_eq (today : Date) :
    lastDayPrevMonth today
      = if 1 < today.month then
          ⟨today.year, today.month - 1, daysInMonth today.year (today.month - 1)⟩
        else ⟨today.year - 1, 12, 31⟩ := by
  unfold lastDayPrevMonth replaceDay
  exact predDay_day_one _ _

/-- December has 31 days. -/
theorem daysInMonth_december (y : Int) : daysInMonth y 12 = 31 := by
  simp [daysInMonth, daysInMonthB]

/-- C6: for every (valid) current date, `end_date` is the last calendar day
of the month immediately preceding the current month, `start_date` is the
last calendar day of the month immediately preceding `end_date`'s month,
`start_date < end_date`, and both are strictly before the current date,
including across year boundaries. -/
theorem refWindow_correct (today : Date) (h : today.Valid) :
    (12 * (refWindow today).2.year + (refWindow today).2.month
        = 12 * today.year + today.month - 1)
    ∧ (refWindow today).2.day
        = daysInMonth (refWindow today).2.year (refWindow today).2.month
    ∧ (refWindow today).2.Valid
    ∧ (12 * (refWindow today).1.year + (refWindow today).1.month
        = 12 * (refWindow today).2.year + (refWindow today).2.month - 1)
    ∧ (refWindow today).1.day
        = daysInMonth (refWindow today).1.year (refWindow today).1.month
    ∧ (refWindow today).1.Valid
    ∧ dateLt (refWindow today).1 (refWindow today).2 = true
    ∧ dateLt (refWindow today).2 today = true
    ∧ dateLt (refWindow today).1 today = true := by
  obtain ⟨hm1, hm2, hd1, hd2⟩ := h
  rcases (by omega : 3 ≤ today.month ∨ today.month = 2 ∨ today.month = 1) with hc | hc | hc
  · -- months March..December: both reference dates in the current year
    have hE : lastDayPrevMonth today
        = ⟨today.year, today.month - 1, daysInMonth today.year (today.month - 1)⟩ := by
      rw [lastDayPrevMonth_eq, if_pos (by omega)]
    have hS : lastDayTwoMonthsAgo today
        = ⟨today.year, today.month - 2, daysInMonth today.year (today.month - 2)⟩ := by
      unfold lastDayTwoMonthsAgo replaceDay
      rw [hE]
      dsimp only
      rw [predDay_day_one, if_pos (by omega),
        show today.month - 1 - 1 = today.month - 2 from by omega]
    have b1 := daysInMonth_bounds today.year (today.month - 1)
    have b2 := daysInMonth_bounds today.year (today.month - 2)
    refine ⟨?_, ?_, ?_, ?_, ?_, ?_, ?_, ?_, ?_⟩
    all_goals first
      | omega
      | (simp only [refWindow, hE, hS, dateLt, Date.Valid, decide_eq_true_eq,
          Bool.or_eq_true, Bool.and_eq_true, beq_iff_eq, true_and, and_true,
          lt_self_iff_false, false_or, or_false]; omega)
      | (simp only [refWindow, hE, hS, dateLt, Date.Valid, decide_eq_true_eq,
          Bool.or_eq_true, Bool.and_eq_true, beq_iff_eq, true_and, and_true,
          lt_self_iff_false, false_or, or_false])
  · -- February: end date is 31-Jan, start date is 31-Dec of the previous year
    have hE : lastDayPrevMonth today
        = ⟨today.year, 1, daysInMonth today.year 1⟩ := by
      rw [lastDayPrevMonth_eq, if_pos (by omega)]
      rw [hc]
      norm_num
    have hS : lastDayTwoMonthsAgo today = ⟨today.year - 1, 12, 31⟩ := by
      unfold lastDayTwoMonthsAgo replaceDay
      rw [hE]
      dsimp only
      rw [predDay_day_one, if_neg (by omega)]
    have b1 := daysInMonth_bounds today.year 1
    have hdec := daysInMonth_december (today.year - 1)
    refine ⟨?_, ?_, ?_, ?_, ?_, ?_, ?_, ?_, ?_⟩
    all_goals first
      | omega
      | (simp only [refWindow, hE, hS, dateLt, Date.Valid, decide_eq_true_eq,
          Bool.or_eq_true, Bool.and_eq_true, beq_iff_eq, true_and, and_true,
          lt_self_iff_false, false_or, or_false]; omega)
      | (simp only [refWindow, hE, hS, dateLt, Date.Valid, decide_eq_true_eq,
          Bool.or_eq_true, Bool.and_eq_true, beq_iff_eq, true_and, and_true,
          lt_self_iff_false, false_or, or_false])
  · -- January: end date is 31-Dec, start date is 30-Nov of the previous year
    have hE : lastDayPrevMonth today = ⟨today.year - 1, 12, 31⟩ := by
      rw [lastDayPrevMonth_eq, if_neg (by omega)]
    have hS : lastDayTwoMonthsAgo today
        = ⟨today.year - 1, 11, daysInMonth (today.year - 1) 11⟩ := by
      unfold lastDayTwoMonthsAgo replaceDay
      rw [hE]
      dsimp only
      rw [predDay_day_one, if_pos (by omega)]
      norm_num
    have b1 := daysInMonth_bounds (today.year - 1) 11
    have hdec := daysInMonth_december (today.year - 1)
    refine ⟨?_, ?_, ?_, ?_, ?_, ?_, ?_, ?_, ?_⟩
    all_goals first
      | omega
      | (simp only [refWindow, hE, hS, dateLt, Date.Valid, decide_eq_true_eq,
          Bool.or_eq_true, Bool.and_eq_true, beq_iff_eq, true_and, and_true,
          lt_self_iff_false, false_or, or_false]; omega)
      | (simp only [refWindow, hE, hS, dateLt, Date.Valid, decide_eq_true_eq,
          Bool.or_eq_true, Bool.and_eq_true, beq_iff_eq, true_and, and_true,
          lt_self_iff_false, false_or, or_false])

/-- C6 witness: the window derived from 2026-01-15 (a year-boundary case:
both reference dates fall in 2025). -/
theorem refWindow_correct_witness :
    (Date.mk 2026 1 15).Valid
    ∧ dateLt (refWindow ⟨2026, 1, 15⟩).1 (refWindow ⟨2026, 1, 15⟩).2 = true
    ∧ dateLt (refWindow ⟨2026, 1, 15⟩).2 ⟨2026, 1, 15⟩ = true :=
  ⟨by decide, (refWindow_correct ⟨2026, 1, 15⟩ (by decide)).2.2.2.2.2.2.1,
    (refWindow_correct ⟨2026, 1, 15⟩ (by decide)).2.2.2.2.2.2.2.1⟩

/-- Date order is reflexive. -/
theorem dateLe_refl (a : Date) : dateLe a a = true := by
  simp [dateLe]

/-- Date order is transitive. -/
theorem dateLe_trans (a b c : Date) (h1 : dateLe a b = true) (h2 : dateLe b c = true) :
    dateLe a c = true := by
  simp only [dateLe, Bool.or_eq_true, Bool.and_eq_true, decide_eq_true_eq,
    beq_iff_eq] at *
  omega

/-- Date order is total. -/
theorem dateLe_total (a b : Date) : (dateLe a b || dateLe b a) = true := by
  simp only [dateLe, Bool.or_eq_true, Bool.and_eq_true, decide_eq_true_eq,
    beq_iff_eq]
  omega

/-- Date order is antisymmetric. -/
theorem dateLe_antisymm (a b : Date) (h1 : dateLe a b = true) (h2 : dateLe b a = true) :
    a = b := by
  simp only [dateLe, Bool.or_eq_true, Bool.and_eq_true, decide_eq_true_eq,
    beq_iff_eq] at h1 h2
  have hy : a.year = b.year := by omega
  have hm : a.month = b.month := by omega
  have hd : a.day = b.day := by omega
  cases a; cases b
  simp_all

/-- Strict date order is date order plus distinctness. -/
theorem dateLt_of_le_ne (a b : Date) (h1 : dateLe a b = true) (h2 : a ≠ b) :
    dateLt a b = true := by
  simp only [dateLe, Bool.or_eq_true, Bool.and_eq_true, decide_eq_true_eq,
    beq_iff_eq] at h1
  simp only [dateLt, Bool.or_eq_true, Bool.and_eq_true, decide_eq_true_eq,
    beq_iff_eq]
  rcases h1 with h | ⟨hy, h | ⟨hm, hd⟩⟩
  · omega
  · omega
  · rcases (by omega : a.day < b.day ∨ a.day = b.day) with h | h
    · omega
    · exact absurd (by cases a; cases b; simp_all) h2

/-- Months 1..12: the days of month `m` carry `daysBeforeMonth` to the next
month's value. -/
theorem daysBeforeMonth_mono (l : Bool) (m n : Int) (h1 : 1 ≤ m) (h2 : m < n)
    (h3 : n ≤ 13) :
    daysBeforeMonth l m + daysInMonthB l m ≤ daysBeforeMonth l n := by
  have h4 : m ≤ 12 := by omega
  interval_cases m <;> interval_cases n <;> cases l <;> decide

/-- A day position within a year is at most the year's length. -/
theorem daysBeforeMonth_le_year (l : Bool) (m : Int) (h1 : 1 ≤ m) (h2 : m ≤ 12) :
    daysBeforeMonth l m + daysInMonthB l m ≤ 365 + (if l then 1 else 0) := by
  interval_cases m <;> cases l <;> decide

/-- The day count before a month is non-negative on months 1..12. -/
theorem daysBeforeMonth_nonneg (l : Bool) (m : Int) (h1 : 1 ≤ m) (h2 : m ≤ 12) :
    0 ≤ daysBeforeMonth l m := by
  interval_cases m <;> cases l <;> decide

/-- Advancing the leap-adjusted year count by one year adds the year's
length. -/
theorem yearCount_step (y : Int) :
    365 * (y - 1) + (y - 1) / 4 - (y - 1) / 100 + (y - 1) / 400 + 365
        + (if isLeap y then (1:Int) else 0)
      = 365 * y + y / 4 - y / 100 + y / 400 := by
  unfold isLeap
  split
  next h =>
    simp only [Bool.or_eq_true, Bool.and_eq_true, beq_iff_eq, bne_iff_ne] at h
    omega
  next h =>
    simp only [Bool.or_eq_true, Bool.and_eq_true, beq_iff_eq, bne_iff_ne] at h
    push_neg at h
    omega

/-- Ordinals are strictly monotone on valid dates: the day count between
two Python dates is positive exactly when the dates are in strict order. -/
theorem toOrdinal_lt_of_dateLt (a b : Date) (ha : a.Valid) (hb : b.Valid)
    (hab : dateLt a b = true) : toOrdinal a < toOrdinal b := by
  obtain ⟨ham1, ham2, had1, had2⟩ := ha
  obtain ⟨hbm1, hbm2, hbd1, hbd2⟩ := hb
  simp only [daysInMonth] at had2 hbd2
  simp only [dateLt, Bool.or_eq_true, Bool.and_eq_true, decide_eq_true_eq,
    beq_iff_eq] at hab
  unfold toOrdinal
  rcases (by tauto : a.year < b.year ∨ (a.year = b.year ∧ (a.month < b.month
      ∨ (a.month = b.month ∧ a.day < b.day)))) with hy | ⟨hy, hm | ⟨hm, hd⟩⟩
  · have h1 := daysBeforeMonth_le_year (isLeap a.year) a.month ham1 ham2
    have h2 := yearCount_step a.year
    have h3 : 365 * a.year + a.year / 4 - a.year / 100 + a.year / 400
        ≤ 365 * (b.year - 1) + (b.year - 1) / 4 - (b.year - 1) / 100
          + (b.year - 1) / 400 := by omega
    have h4 := daysBeforeMonth_nonneg (isLeap b.year) b.month hbm1 hbm2
    omega
  · have e1 : isLeap a.year = isLeap b.year := by rw [hy]
    have h1 := daysBeforeMonth_mono (isLeap b.year) a.month b.month ham1 hm
      (by omega)
    have h2 : a.day ≤ daysInMonthB (isLeap b.year) a.month := by
      rw [← e1]; exact had2
    rw [hy]
    omega
  · have e1 : isLeap a.year = isLeap b.year := by rw [hy]
    have h2 : a.day ≤ daysInMonthB (isLeap b.year) b.month := by
      rw [← e1, ← hm]; exact had2
    rw [hy, hm]
    omega

/-- One NAV observation: a row of the cleaned DataFrame
(`{"date": ..., "nav": ...}` as `last_nav_on_or_before` returns it). -/
structure Obs where
  date : Date
  nav : ℚ
deriving DecidableEq

/-- One raw record of the feed's `data` array, as it stands after the
coercing parsers of lines 54-55: `none` is a value `pd.to_datetime` /
`pd.to_numeric` turned into NaT/NaN (and which `dropna` then removes). -/
structure RawRec where
  date : Option Date
  nav : Option ℚ
deriving DecidableEq

/-- The row survives `dropna(subset=["date", "nav"])` exactly when both
fields parsed; a surviving row keeps both parsed values unchanged. -/
def parseRec (r : RawRec) : Option Obs :=
  match r.date, r.nav with
  | some d, some v => some ⟨d, v⟩
  | _, _ => none

/-- Row comparison used by `sort_values("date")`. -/
def obsLe (a b : Obs) : Bool := dateLe a.date b.date

/-- Insert one row into a date-sorted list. -/
def insertByDate (o : Obs) : List Obs → List Obs
  | [] => [o]
  | b :: l => if obsLe o b then o :: b :: l else b :: insertByDate o l

/-- The sort `df.sort_values("date")`: some permutation of the rows that is
non-decreasing by date (the source fixes no tie order for equal dates). -/
def sortByDate : List Obs → List Obs
  | [] => []
  | a :: l => insertByDate a (sortByDate l)

/-- The parsing/cleaning part of `get_nav_data` (lines 52-57): coerce-parse
date and nav of every record, drop rows where either failed, sort by date. -/
def get_nav_data (rs : List RawRec) : List Obs :=
  sortByDate (rs.filterMap parseRec)

/-- Lines 59-64, `last_nav_on_or_before`: the last row of the sub-frame of
rows dated on or before the target, `None` if that sub-frame is empty. -/
def last_nav_on_or_before (s : List Obs) (target : Date) : Option Obs :=
  (s.filter (fun o => dateLe o.date target)).getLast?

/-- Insertion keeps exactly the rows present before. -/
theorem insertByDate_perm (o : Obs) (l : List Obs) :
    (insertByDate o l).Perm (o :: l) := by
  induction l with
  | nil => exact List.Perm.refl _
  | cons b t ih =>
    unfold insertByDate
    split
    · exact List.Perm.refl _
    · exact List.Perm.trans (List.Perm.cons b ih) (List.Perm.swap o b t)

/-- The sort is a permutation of its input. -/
theorem sortByDate_perm (l : List Obs) : (sortByDate l).Perm l := by
  induction l with
  | nil => exact List.Perm.refl _
  | cons a t ih =>
    exact List.Perm.trans (insertByDate_perm a (sortByDate t)) (List.Perm.cons a ih)

/-- Insertion preserves date order. -/
theorem insertByDate_sorted (o : Obs) (l : List Obs)
    (hl : List.Pairwise (fun a b => obsLe a b = true) l) :
    List.Pairwise (fun a b => obsLe a b = true) (insertByDate o l) := by
  induction l with
  | nil => simp [insertByDate]
  | cons b t ih =>
    unfold insertByDate
    split
    next hob =>
      refine List.Pairwise.cons ?_ hl
      intro x hx
      rcases List.mem_cons.mp hx with rfl | hx
      · exact hob
      · exact dateLe_trans _ _ _ hob (List.rel_of_pairwise_cons hl hx)
    next hob =>
      have hbo : obsLe b o = true := by
        have := dateLe_total o.date b.date
        simp only [obsLe] at *
        simp only [Bool.or_eq_true] at this
        tauto
      refine List.Pairwise.cons ?_ (ih hl.of_cons)
      intro x hx
      have hx2 : x ∈ o :: t := (insertByDate_perm o t).mem_iff.mp hx
      rcases List.mem_cons.mp hx2 with rfl | hx3
      · exact hbo
      · exact List.rel_of_pairwise_cons hl hx3

/-- The sorted list is non-decreasing by date. -/
theorem sortByDate_sorted (l : List Obs) :
    List.Pairwise (fun a b => obsLe a b = true) (sortByDate l) := by
  induction l with
  | nil => simp [sortByDate]
  | cons a t ih => exact insertByDate_sorted a (sortByDate t) ih

/-- The kept-and-parsed rows, written as an order-preserving filter of the
input with both parsed values admitted unchanged. -/
theorem filterMap_parseRec_eq (rs : List RawRec) :
    rs.filterMap parseRec
      = (rs.filter (fun r => (parseRec r).isSome)).map
          (fun r => ⟨(r.date).getD ⟨0, 0, 0⟩, (r.nav).getD 0⟩) := by
  induction rs with
  | nil => rfl
  | cons r t ih =>
    cases hd : r.date <;> cases hn : r.nav <;>
      simp [parseRec, List.filterMap_cons, List.filter_cons, hd, hn, ih]

/-- C5: series construction keeps exactly the records whose date and value
both parse (each admitted unchanged, never coerced), the result is a
date-sorted permutation of those kept records (which are an order-preserving
subsequence of the input), and empty or entirely unparseable input gives an
empty series rather than an error. -/
theorem get_nav_data_spec (rs : List RawRec) :
    (get_nav_data rs).Perm (rs.filterMap parseRec)
    ∧ List.Pairwise (fun a b => dateLe a.date b.date = true) (get_nav_data rs)
    ∧ rs.filterMap parseRec
        = (rs.filter (fun r => (parseRec r).isSome)).map
            (fun r => ⟨(r.date).getD ⟨0, 0, 0⟩, (r.nav).getD 0⟩)
    ∧ (rs = [] → get_nav_data rs = [])
    ∧ ((∀ r ∈ rs, parseRec r = none) → get_nav_data rs = []) := by
  refine ⟨sortByDate_perm _, sortByDate_sorted _, filterMap_parseRec_eq rs,
    ?_, ?_⟩
  · rintro rfl
    rfl
  · intro h
    have : rs.filterMap parseRec = [] := by
      simp only [List.filterMap_eq_nil_iff]
      exact h
    simp [get_nav_data, this, sortByDate]

/-- C5 witness: the specification applied to a concrete two-record input,
one record malformed. -/
theorem get_nav_data_spec_witness :
    get_nav_data [] = []
    ∧ (∀ r ∈ [RawRec.mk none (some 3)], parseRec r = none)
    ∧ get_nav_data [RawRec.mk none (some 3)] = [] := by
  refine ⟨(get_nav_data_spec []).2.2.2.1 rfl, ?_, ?_⟩
  · intro r hr
    simp only [List.mem_singleton] at hr
    subst hr
    rfl
  · refine (get_nav_data_spec [RawRec.mk none (some 3)]).2.2.2.2 ?_
    intro r hr
    simp only [List.mem_singleton] at hr
    subst hr
    rfl

/-- C8 counterexample: a record whose NAV parses to a negative number is
admitted to the series unchanged, so the constructed series does contain a
negative price. -/
theorem get_nav_data_keeps_negative :
    get_nav_data [RawRec.mk (some ⟨2024, 1, 5⟩) (some (-1))]
      = [Obs.mk ⟨2024, 1, 5⟩ (-1)]
    ∧ (Obs.mk ⟨2024, 1, 5⟩ (-1)).nav < 0 := by
  constructor
  · rfl
  · norm_num

/-- C8 (amended): every observation admitted to a series carries exactly the
successfully parsed date and value of some input record — rows with an
unparseable (NaN/NaT-coerced) field are dropped whole and no value is ever
coerced to zero; the code places no sign restriction on parsed prices. -/
theorem get_nav_data_nav_parsed (rs : List RawRec) (o : Obs)
    (ho : o ∈ get_nav_data rs) :
    ∃ r ∈ rs, r.date = some o.date ∧ r.nav = some o.nav := by
  have h1 : o ∈ rs.filterMap parseRec := (sortByDate_perm _).mem_iff.mp ho
  rw [List.mem_filterMap] at h1
  obtain ⟨r, hr, hpr⟩ := h1
  refine ⟨r, hr, ?_⟩
  cases hd : r.date <;> cases hn : r.nav <;>
    simp only [parseRec, hd, hn] at hpr <;> cases hpr
  exact ⟨rfl, rfl⟩

/-- C8 witness: the amended property at a concrete series. -/
theorem get_nav_data_nav_parsed_witness :
    ∃ r ∈ [RawRec.mk (some ⟨2024, 1, 5⟩) (some 7)],
      r.date = some (Obs.mk ⟨2024, 1, 5⟩ 7).date
      ∧ r.nav = some (Obs.mk ⟨2024, 1, 5⟩ 7).nav :=
  get_nav_data_nav_parsed [RawRec.mk (some ⟨2024, 1, 5⟩) (some 7)]
    (Obs.mk ⟨2024, 1, 5⟩ 7) (by simp [get_nav_data, parseRec, sortByDate, insertByDate])

/-- In a `Pairwise`-ordered list, the last element is above every element. -/
theorem rel_getLast_of_pairwise {R : Obs → Obs → Prop} (l : List Obs) (o : Obs)
    (hp : List.Pairwise R l) (ho : l.getLast? = some o) :
    ∀ x ∈ l, x = o ∨ R x o := by
  induction l with
  | nil => cases ho
  | cons a t ih =>
    cases t with
    | nil =>
      intro x hx
      simp only [List.getLast?_singleton, Option.some_inj] at ho
      simp only [List.mem_singleton] at hx
      exact Or.inl (hx.trans ho)
    | cons b u =>
      rw [List.getLast?_cons_cons] at ho
      intro x hx
      rcases List.mem_cons.mp hx with rfl | hx
      · exact Or.inr (List.rel_of_pairwise_cons hp (List.mem_of_mem_getLast? ho))
      · exact ih hp.of_cons ho x hx

/-- C4: on a date-ordered series, the as-of lookup returns an observation
dated on or before the target that is latest among all such observations,
and returns `None` exactly when no observation is dated on or before the
target. -/
theorem last_nav_on_or_before_spec (s : List Obs) (d : Date)
    (hs : List.Pairwise (fun a b => obsLe a b = true) s) :
    (∀ o, last_nav_on_or_before s d = some o →
        o ∈ s ∧ dateLe o.date d = true
        ∧ ∀ x ∈ s, dateLe x.date d = true → dateLe x.date o.date = true)
    ∧ (last_nav_on_or_before s d = none ↔ ∀ x ∈ s, dateLe x.date d = false) := by
  constructor
  · intro o ho
    have hmem : o ∈ s.filter (fun o => dateLe o.date d) :=
      List.mem_of_mem_getLast? ho
    have hmem2 := List.mem_filter.mp hmem
    refine ⟨hmem2.1, hmem2.2, ?_⟩
    intro x hx hxd
    have hxf : x ∈ s.filter (fun o => dateLe o.date d) :=
      List.mem_filter.mpr ⟨hx, hxd⟩
    have hpf := hs.filter (fun o => dateLe o.date d)
    rcases rel_getLast_of_pairwise _ o hpf ho x hxf with rfl | hrel
    · exact dateLe_refl _
    · exact hrel
  · unfold last_nav_on_or_before
    rw [List.getLast?_eq_none_iff, List.filter_eq_nil_iff]
    constructor
    · intro h x hx
      have := h x hx
      simpa using this
    · intro h x hx
      simp [h x hx]

/-- C4 witness: the lookup specification applied to a concrete two-point
series and a target between the two dates. -/
theorem last_nav_on_or_before_spec_witness :
    Obs.mk ⟨2024, 1, 31⟩ 100
        ∈ [Obs.mk ⟨2024, 1, 31⟩ 100, Obs.mk ⟨2024, 2, 29⟩ 110]
    ∧ dateLe (Obs.mk ⟨2024, 1, 31⟩ 100).date ⟨2024, 2, 10⟩ = true := by
  have h := (last_nav_on_or_before_spec
    [Obs.mk ⟨2024, 1, 31⟩ 100, Obs.mk ⟨2024, 2, 29⟩ 110] ⟨2024, 2, 10⟩
    (by decide)).1 (Obs.mk ⟨2024, 1, 31⟩ 100) (by decide)
  exact ⟨h.1, h.2.1⟩

/-- C10 counterexample: a constructed series holding two observations dated
2024-01-01 and one dated 2024-01-02. For the target 2024-01-02 (on/after the
duplicated date) the lookup returns the 2024-01-02 observation, not any of
the equal-dated (2024-01-01) ones — refuting the claim for targets with an
intervening later observation. -/
theorem lookup_duplicate_counterexample :
    ((get_nav_data [RawRec.mk (some ⟨2024, 1, 1⟩) (some 1),
        RawRec.mk (some ⟨2024, 1, 1⟩) (some 2),
        RawRec.mk (some ⟨2024, 1, 2⟩) (some 3)]).filter
          (fun o => decide (o.date = ⟨2024, 1, 1⟩))).length = 2
    ∧ dateLe ⟨2024, 1, 1⟩ ⟨2024, 1, 2⟩ = true
    ∧ last_nav_on_or_before
        (get_nav_data [RawRec.mk (some ⟨2024, 1, 1⟩) (some 1),
          RawRec.mk (some ⟨2024, 1, 1⟩) (some 2),
          RawRec.mk (some ⟨2024, 1, 2⟩) (some 3)]) ⟨2024, 1, 2⟩
        = some (Obs.mk ⟨2024, 1, 2⟩ 3)
    ∧ ∀ o, last_nav_on_or_before
        (get_nav_data [RawRec.mk (some ⟨2024, 1, 1⟩) (some 1),
          RawRec.mk (some ⟨2024, 1, 1⟩) (some 2),
          RawRec.mk (some ⟨2024, 1, 2⟩) (some 3)]) ⟨2024, 1, 2⟩ = some o
        → ¬ o.date = ⟨2024, 1, 1⟩ := by
  refine ⟨by decide, by decide, by decide, ?_⟩
  intro o ho
  rw [show last_nav_on_or_before
      (get_nav_data [RawRec.mk (some ⟨2024, 1, 1⟩) (some 1),
        RawRec.mk (some ⟨2024, 1, 1⟩) (some 2),
        RawRec.mk (some ⟨2024, 1, 2⟩) (some 3)]) ⟨2024, 1, 2⟩
      = some (Obs.mk ⟨2024, 1, 2⟩ 3) from by decide] at ho
  cases ho
  decide

/-- Elements of a date-ordered list dated on or before `d`, where the list
holds some element dated exactly `d`, are listed before any element dated
after `d`; the last element dated on or before `d` is then the last element
dated exactly `d`. -/
theorem getLast_filter_le_eq_filter_eq (s : List Obs) (d : Date)
    (hs : List.Pairwise (fun a b => obsLe a b = true) s)
    (hex : ∃ o ∈ s, o.date = d) :
    (s.filter (fun o => dateLe o.date d)).getLast?
      = (s.filter (fun o => decide (o.date = d))).getLast? := by
  induction s with
  | nil =>
    obtain ⟨o, ho, _⟩ := hex
    cases ho
  | cons a t ih =>
    by_cases had : a.date = d
    · -- every kept element of the tail is dated exactly d
      have hcong : t.filter (fun o => dateLe o.date d)
          = t.filter (fun o => decide (o.date = d)) := by
        apply List.filter_congr
        intro x hx
        have hax : dateLe a.date x.date = true :=
          List.rel_of_pairwise_cons hs hx
        by_cases hxd : dateLe x.date d = true
        · have hxe : x.date = d := by
            apply dateLe_antisymm x.date d hxd
            rw [← had]
            exact hax
          simp [hxd, hxe, dateLe_refl]
        · have hxne : ¬ x.date = d := by
            intro hxe
            exact hxd (by rw [hxe]; exact dateLe_refl d)
          simp only [Bool.not_eq_true] at hxd
          simp [hxd, hxne]
      have had_le : dateLe a.date d = true := by
        rw [had]; exact dateLe_refl d
      rw [List.filter_cons, List.filter_cons, if_pos had_le,
        if_pos (show decide (a.date = d) = true by simp [had]), hcong]
    · -- a is not dated d, so the witness sits in the tail
      obtain ⟨w, hw, hwd⟩ := hex
      have hwt : w ∈ t := by
        rcases List.mem_cons.mp hw with rfl | h
        · exact absurd hwd had
        · exact h
      have hih := ih hs.of_cons ⟨w, hwt, hwd⟩
      by_cases hale : dateLe a.date d = true
      · have hne : t.filter (fun o => dateLe o.date d) ≠ [] := by
          intro hnil
          rw [List.filter_eq_nil_iff] at hnil
          exact hnil w hwt (by rw [hwd]; exact dateLe_refl d)
        rw [List.filter_cons, List.filter_cons, if_pos hale,
          if_neg (show ¬ decide (a.date = d) = true by simp [had])]
        cases hfl : t.filter (fun o => dateLe o.date d) with
        | nil => exact absurd hfl hne
        | cons b u =>
          rw [hfl] at hih
          rw [List.getLast?_cons_cons, hih]
      · rw [List.filter_cons, List.filter_cons, if_neg hale,
          if_neg (show ¬ decide (a.date = d) = true by simp [had])]
        exact hih

/-- C10 (amended): duplicates are never removed during construction (the
series holds as many observations per date as there were parseable records
for that date), and for a target on or after a duplicated date `d` *such
that no observation dated after `d` lies on or before the target* (i.e. `d`
resolves as the as-of date), the lookup returns precisely the equal-dated
observation occupying the last position in the series as stored. -/
theorem lookup_duplicate_tiebreak (s : List Obs) (d t : Date)
    (hs : List.Pairwise (fun a b => obsLe a b = true) s)
    (hdt : dateLe d t = true)
    (hmax : ∀ o ∈ s, dateLe o.date t = true → dateLe o.date d = true)
    (hdup : 2 ≤ (s.filter (fun o => decide (o.date = d))).length) :
    last_nav_on_or_before s t = (s.filter (fun o => decide (o.date = d))).getLast?
    ∧ (∀ o, last_nav_on_or_before s t = some o → o.date = d)
    ∧ (∀ rs : List RawRec,
        ((get_nav_data rs).filter (fun o => decide (o.date = d))).length
          = ((rs.filterMap parseRec).filter (fun o => decide (o.date = d))).length) := by
  have hex : ∃ o ∈ s, o.date = d := by
    have hne : s.filter (fun o => decide (o.date = d)) ≠ [] := by
      intro hnil
      rw [hnil] at hdup
      simp at hdup
    obtain ⟨x, hx⟩ := List.exists_mem_of_ne_nil _ hne
    have := List.mem_filter.mp hx
    exact ⟨x, this.1, by simpa using this.2⟩
  have hcong : s.filter (fun o => dateLe o.date t)
      = s.filter (fun o => dateLe o.date d) := by
    apply List.filter_congr
    intro x hx
    by_cases h1 : dateLe x.date t = true
    · rw [h1, Eq.comm]
      exact hmax x hx h1
    · simp only [Bool.not_eq_true] at h1
      rw [h1, Eq.comm]
      by_cases h2 : dateLe x.date d = true
      · exact absurd (dateLe_trans _ _ _ h2 hdt) (by simp [h1])
      · simpa using h2
  have hmain : last_nav_on_or_before s t
      = (s.filter (fun o => decide (o.date = d))).getLast? := by
    unfold last_nav_on_or_before
    rw [hcong]
    exact getLast_filter_le_eq_filter_eq s d hs hex
  refine ⟨hmain, ?_, ?_⟩
  · intro o ho
    rw [hmain] at ho
    have := List.mem_filter.mp (List.mem_of_mem_getLast? ho)
    simpa using this.2
  · intro rs
    rw [← List.countP_eq_length_filter, ← List.countP_eq_length_filter]
    exact (sortByDate_perm _).countP_eq _

/-- C10 witness: the amended tie-break property at a concrete series whose
duplicated date is the latest date on or before the target. -/
theorem lookup_duplicate_tiebreak_witness :
    last_nav_on_or_before
        [Obs.mk ⟨2024, 1, 1⟩ 1, Obs.mk ⟨2024, 1, 1⟩ 2, Obs.mk ⟨2024, 1, 5⟩ 3]
        ⟨2024, 1, 4⟩
      = ([Obs.mk ⟨2024, 1, 1⟩ 1, Obs.mk ⟨2024, 1, 1⟩ 2,
          Obs.mk ⟨2024, 1, 5⟩ 3].filter
            (fun o => decide (o.date = ⟨2024, 1, 1⟩))).getLast?
    ∧ ∀ o, last_nav_on_or_before
        [Obs.mk ⟨2024, 1, 1⟩ 1, Obs.mk ⟨2024, 1, 1⟩ 2, Obs.mk ⟨2024, 1, 5⟩ 3]
        ⟨2024, 1, 4⟩ = some o → o.date = ⟨2024, 1, 1⟩ := by
  have h := lookup_duplicate_tiebreak
    [Obs.mk ⟨2024, 1, 1⟩ 1, Obs.mk ⟨2024, 1, 1⟩ 2, Obs.mk ⟨2024, 1, 5⟩ 3]
    ⟨2024, 1, 1⟩ ⟨2024, 1, 4⟩ (by decide) (by decide) (by decide) (by decide)
  exact ⟨h.1, h.2.1⟩

/-- Lines 66-84, `monthly_rolling_return`: resolve the two as-of lookups at
the reference dates derived from the current date, guard missing points,
non-positive elapsed days and a zero start NAV, else annualize the
point-to-point return linearly over the actual elapsed days. -/
def monthly_rolling_return (s : List Obs) (today : Date) : Option ℚ :=
  match last_nav_on_or_before s (lastDayPrevMonth today),
      last_nav_on_or_before s (lastDayTwoMonthsAgo today) with
  | some t1, some t0 =>
      if toOrdinal t1.date - toOrdinal t0.date ≤ 0 ∨ t0.nav = 0 then none
      else some (((t1.nav - t0.nav) / t0.nav)
        * (365 / ((toOrdinal t1.date - toOrdinal t0.date : Int) : ℚ)))
  | _, _ => none

/-- The calculator of §4.4 taken over an explicit window
`(start_date, end_date)` instead of re-deriving the window from the current
date (the hoisted, once-per-run form). -/
def rollingReturnOnWindow (s : List Obs) (w : Date × Date) : Option ℚ :=
  match last_nav_on_or_before s w.2, last_nav_on_or_before s w.1 with
  | some t1, some t0 =>
      if toOrdinal t1.date - toOrdinal t0.date ≤ 0 ∨ t0.nav = 0 then none
      else some (((t1.nav - t0.nav) / t0.nav)
        * (365 / ((toOrdinal t1.date - toOrdinal t0.date : Int) : ℚ)))
  | _, _ => none

/-- Recomputing the window inside the calculator equals computing it once
and passing it in: the window depends only on the run's current date. -/
theorem monthly_rolling_return_eq_on_window (s : List Obs) (today : Date) :
    monthly_rolling_return s today = rollingReturnOnWindow s (refWindow today) :=
  rfl

/-- Reduction of the calculator once both lookups are resolved. -/
theorem monthly_rolling_return_eq (s : List Obs) (today : Date) (t1 t0 : Obs)
    (h1 : last_nav_on_or_before s (lastDayPrevMonth today) = some t1)
    (h0 : last_nav_on_or_before s (lastDayTwoMonthsAgo today) = some t0) :
    monthly_rolling_return s today
      = if toOrdinal t1.date - toOrdinal t0.date ≤ 0 ∨ t0.nav = 0 then none
        else some (((t1.nav - t0.nav) / t0.nav)
          * (365 / ((toOrdinal t1.date - toOrdinal t0.date : Int) : ℚ))) := by
  unfold monthly_rolling_return
  rw [h1, h0]


/-- C2: whenever both as-of lookups resolve with the end observation
strictly later and a non-zero start NAV, the result is
`((t1.nav - t0.nav) / t0.nav) * (365 / days)` with `days` the whole-day
difference between the two resolved observation dates; on the concrete
2024-01-31/2024-02-29 series with a mid-March run date, `days = 29` and the
result is `(10/100) * (365/29)`. -/
theorem monthly_rolling_return_formula :
    (∀ (s : List Obs) (today : Date) (t0 t1 : Obs),
      last_nav_on_or_before s (lastDayTwoMonthsAgo today) = some t0 →
      last_nav_on_or_before s (lastDayPrevMonth today) = some t1 →
      t0.date.Valid → t1.date.Valid →
      dateLt t0.date t1.date = true →
      t0.nav ≠ 0 →
      monthly_rolling_return s today
        = some (((t1.nav - t0.nav) / t0.nav)
            * (365 / ((toOrdinal t1.date - toOrdinal t0.date : Int) : ℚ))))
    ∧ toOrdinal ⟨2024, 2, 29⟩ - toOrdinal ⟨2024, 1, 31⟩ = 29
    ∧ monthly_rolling_return
        [Obs.mk ⟨2024, 1, 31⟩ 100, Obs.mk ⟨2024, 2, 29⟩ 110] ⟨2024, 3, 15⟩
        = some ((10 / 100) * (365 / 29) : ℚ) := by
  refine ⟨?_, by decide, ?_⟩
  · intro s today t0 t1 h0 h1 hv0 hv1 hlt hnz
    have hdays : toOrdinal t0.date < toOrdinal t1.date :=
      toOrdinal_lt_of_dateLt t0.date t1.date hv0 hv1 hlt
    rw [monthly_rolling_return_eq s today t1 t0 h1 h0,
      if_neg (by push_neg; exact ⟨by omega, hnz⟩)]
  · have e3 : last_nav_on_or_before
        [Obs.mk ⟨2024, 1, 31⟩ 100, Obs.mk ⟨2024, 2, 29⟩ 110]
        (lastDayPrevMonth ⟨2024, 3, 15⟩) = some (Obs.mk ⟨2024, 2, 29⟩ 110) := by
      decide
    have e4 : last_nav_on_or_before
        [Obs.mk ⟨2024, 1, 31⟩ 100, Obs.mk ⟨2024, 2, 29⟩ 110]
        (lastDayTwoMonthsAgo ⟨2024, 3, 15⟩) = some (Obs.mk ⟨2024, 1, 31⟩ 100) := by
      decide
    rw [monthly_rolling_return_eq _ _ _ _ e3 e4,
      show toOrdinal (Obs.mk ⟨2024, 2, 29⟩ 110).date
        - toOrdinal (Obs.mk ⟨2024, 1, 31⟩ 100).date = 29 from by decide,
      if_neg (by decide)]
    norm_num

/-- C2 witness: the general formula applied at the concrete example series
and run date, with every hypothesis discharged by evaluation. -/
theorem monthly_rolling_return_formula_witness :
    monthly_rolling_return
        [Obs.mk ⟨2024, 1, 31⟩ 100, Obs.mk ⟨2024, 2, 29⟩ 110] ⟨2024, 3, 15⟩
      = some ((((Obs.mk ⟨2024, 2, 29⟩ 110).nav - (Obs.mk ⟨2024, 1, 31⟩ 100).nav)
            / (Obs.mk ⟨2024, 1, 31⟩ 100).nav)
          * (365 / ((toOrdinal (Obs.mk ⟨2024, 2, 29⟩ 110).date
              - toOrdinal (Obs.mk ⟨2024, 1, 31⟩ 100).date : Int) : ℚ))) :=
  monthly_rolling_return_formula.1
    [Obs.mk ⟨2024, 1, 31⟩ 100, Obs.mk ⟨2024, 2, 29⟩ 110] ⟨2024, 3, 15⟩
    (Obs.mk ⟨2024, 1, 31⟩ 100) (Obs.mk ⟨2024, 2, 29⟩ 110)
    (by decide) (by decide) (by decide) (by decide) (by decide) (by decide)

/-- The two plan slots of one (AMC, category) catalog entry:
`plans.get("Direct")` / `plans.get("Regular")` — `none` when the plan has
no scheme code configured. -/
structure Plans where
  direct : Option String
  regular : Option String
deriving DecidableEq

/-- One output row: `{"AMC": amc, "Rolling Return - Direct": ...,
"Rolling Return - Regular": ...}`, with `none` the unavailable marker. -/
structure ReportRow where
  amc : String
  direct : Option ℚ
  regular : Option ℚ
deriving DecidableEq

/-- The recorded result of one (AMC, category, plan) item (lines 99-118):
missing code → unavailable; any fetch failure (transport, bad HTTP status)
or the "No data returned" empty payload → exception caught, unavailable;
otherwise parse, then compute the rolling return. -/
def item_result (fetch : String → Except Unit (List RawRec)) (today : Date)
    (code : Option String) : Option ℚ :=
  match code with
  | none => none
  | some c =>
    match fetch c with
    | Except.error _ => none
    | Except.ok rs =>
      if rs.isEmpty then none
      else monthly_rolling_return (get_nav_data rs) today

/-- The row built for one (AMC, category) entry: both plans recorded into
the same row. -/
def mkRow (fetch : String → Except Unit (List RawRec)) (today : Date)
    (amc : String) (pl : Plans) : ReportRow :=
  ⟨amc, item_result fetch today pl.direct, item_result fetch today pl.regular⟩

/-- Python `if category not in results: results[category] = []` followed by
`results[category].append(row)`: append the row under its category,
creating the category at the end on first sight (dict insertion order). -/
def addRow (res : List (String × List ReportRow)) (cat : String)
    (r : ReportRow) : List (String × List ReportRow) :=
  if cat ∈ res.map Prod.fst then
    res.map (fun p => if p.1 = cat then (p.1, p.2 ++ [r]) else p)
  else res ++ [(cat, [r])]

/-- Lines 86-120, `build_results`: iterate AMCs, then categories, filling
one row per (AMC, category) entry and aggregating rows per category. -/
def build_results (fetch : String → Except Unit (List RawRec)) (today : Date)
    (catalog : List (String × List (String × Plans))) :
    List (String × List ReportRow) :=
  catalog.foldl
    (fun res p =>
      p.2.foldl (fun res2 q => addRow res2 q.1 (mkRow fetch today p.1 q.2)) res)
    []

/-- The flattened items of a run: one (category, row) pair per
(AMC, category) catalog entry, in iteration order. -/
def catalogItems (fetch : String → Except Unit (List RawRec)) (today : Date)
    (catalog : List (String × List (String × Plans))) :
    List (String × ReportRow) :=
  catalog.flatMap (fun p => p.2.map (fun q => (q.1, mkRow fetch today p.1 q.2)))

/-- The rows recorded under category `c`, in item order. -/
def rowsOf (c : String) (items : List (String × ReportRow)) : List ReportRow :=
  (items.filter (fun i => decide (i.1 = c))).map Prod.snd

/-- Specification shape of the accumulated results: categories in order of
first appearance, each holding all of its rows in item order. -/
def specResults : List (String × ReportRow) → List (String × List ReportRow)
  | [] => []
  | i :: rest =>
      (i.1, i.2 :: rowsOf i.1 rest)
        :: specResults (rest.filter (fun j => !decide (j.1 = i.1)))
termination_by l => l.length
decreasing_by
  simp only [List.length_cons]
  exact Nat.lt_succ_of_le (List.length_filter_le _ _)

/-- Replay of the orchestration loop over the flattened item list. -/
def runItems : List (String × List ReportRow) → List (String × ReportRow)
    → List (String × List ReportRow)
  | res, [] => res
  | res, i :: rest => runItems (addRow res i.1 i.2) rest

/-- Replaying appended item lists is sequential composition. -/
theorem runItems_append (res : List (String × List ReportRow))
    (l1 l2 : List (String × ReportRow)) :
    runItems res (l1 ++ l2) = runItems (runItems res l1) l2 := by
  induction l1 generalizing res with
  | nil => rfl
  | cons i t ih => simp [runItems, ih]

/-- The double fold of `build_results` is the replay of the flattened
items. -/
theorem build_results_eq_runItems (fetch : String → Except Unit (List RawRec))
    (today : Date) (catalog : List (String × List (String × Plans))) :
    build_results fetch today catalog
      = runItems [] (catalogItems fetch today catalog) := by
  suffices h : ∀ res, catalog.foldl
      (fun res p =>
        p.2.foldl (fun res2 q => addRow res2 q.1 (mkRow fetch today p.1 q.2)) res)
      res = runItems res (catalogItems fetch today catalog) from h []
  induction catalog with
  | nil => intro res; rfl
  | cons p t ih =>
    intro res
    rw [List.foldl_cons]
    rw [show catalogItems fetch today (p :: t)
        = p.2.map (fun q => (q.1, mkRow fetch today p.1 q.2))
          ++ catalogItems fetch today t from List.flatMap_cons p t _]
    rw [runItems_append, ih]
    congr 1
    generalize res = r0
    induction p.2 generalizing r0 with
    | nil => rfl
    | cons q u ih2 => simp [runItems, ih2]

/-- Unfolding of `rowsOf` over a cons. -/
theorem rowsOf_cons (c : String) (i : String × ReportRow)
    (rest : List (String × ReportRow)) :
    rowsOf c (i :: rest)
      = if i.1 = c then i.2 :: rowsOf c rest else rowsOf c rest := by
  unfold rowsOf
  rw [List.filter_cons]
  by_cases h : i.1 = c
  · rw [if_pos (by simp [h]), if_pos h]
    rfl
  · rw [if_neg (by simp [h]), if_neg h]

/-- Filtering by a predicate that keeps every key-`c` item leaves `rowsOf c`
unchanged. -/
theorem rowsOf_filter (c : String) (q : String × ReportRow → Bool)
    (l : List (String × ReportRow)) (h : ∀ j, j.1 = c → q j = true) :
    rowsOf c (l.filter q) = rowsOf c l := by
  unfold rowsOf
  rw [List.filter_filter]
  congr 1
  apply List.filter_congr
  intro j hj
  by_cases hjc : j.1 = c
  · simp [hjc, h j hjc]
  · simp [hjc]

/-- No items give no categories. -/
theorem specResults_nil : specResults [] = [] := by
  rw [specResults]

/-- One-step unfolding of `specResults`. -/
theorem specResults_cons (i : String × ReportRow)
    (rest : List (String × ReportRow)) :
    specResults (i :: rest)
      = (i.1, i.2 :: rowsOf i.1 rest)
        :: specResults (rest.filter (fun j => !decide (j.1 = i.1))) := by
  rw [specResults]

/-- Replaying the items against an accumulator with distinct category keys
appends each item's row to its category (extending existing categories in
place, new categories after them in order of first appearance). -/
theorem runItems_spec (items : List (String × ReportRow))
    (res : List (String × List ReportRow))
    (hnd : (res.map Prod.fst).Nodup) :
    runItems res items
      = res.map (fun p => (p.1, p.2 ++ rowsOf p.1 items))
        ++ specResults
            (items.filter (fun i => !decide (i.1 ∈ res.map Prod.fst))) := by
  induction items generalizing res with
  | nil =>
    show res = _
    simp only [List.filter_nil]
    rw [specResults_nil, List.append_nil]
    rw [show (fun p : String × List ReportRow => (p.1, p.2 ++ rowsOf p.1 []))
        = fun p => (p.1, p.2) from by funext p; rw [show rowsOf p.1 [] = [] from rfl, List.append_nil]]
    simp
  | cons i rest ih =>
    show runItems (addRow res i.1 i.2) rest = _
    by_cases hc : i.1 ∈ res.map Prod.fst
    · -- category already present: its row list is extended in place
      rw [show addRow res i.1 i.2
          = res.map (fun p => if p.1 = i.1 then (p.1, p.2 ++ [i.2]) else p)
          from by rw [addRow, if_pos hc]]
      have hkeys : ((res.map (fun p => if p.1 = i.1 then (p.1, p.2 ++ [i.2]) else p)).map
          Prod.fst) = res.map Prod.fst := by
        rw [List.map_map]
        apply List.map_congr_left
        intro p hp
        by_cases hpi : p.1 = i.1 <;> simp [Function.comp, hpi]
      rw [ih _ (by rw [hkeys]; exact hnd), hkeys]
      congr 1
      · rw [List.map_map]
        apply List.map_congr_left
        intro p hp
        by_cases hpi : p.1 = i.1
        · simp only [Function.comp, if_pos hpi, rowsOf_cons]
          rw [if_pos hpi.symm, List.append_assoc]
          rfl
        · simp only [Function.comp, if_neg hpi, rowsOf_cons]
          rw [if_neg (fun he => hpi he.symm)]
      · rw [List.filter_cons, if_neg (by simp [hc])]
    · -- new category: appended at the end
      rw [show addRow res i.1 i.2 = res ++ [(i.1, [i.2])]
          from by rw [addRow, if_neg hc]]
      have hkeys : ((res ++ [(i.1, [i.2])]).map Prod.fst)
          = res.map Prod.fst ++ [i.1] := by simp
      have hnd2 : (((res ++ [(i.1, [i.2])]).map Prod.fst)).Nodup := by
        rw [hkeys, List.nodup_append]
        refine ⟨hnd, List.nodup_singleton _, ?_⟩
        intro a ha hb
        rw [List.mem_singleton] at hb
        exact hc (hb ▸ ha)
      rw [ih _ hnd2, List.map_append, hkeys]
      rw [List.filter_cons, if_pos (by simp [hc]), specResults_cons]
      rw [List.append_assoc]
      congr 1
      · -- rows of pre-existing categories are unaffected by the new item
        apply List.map_congr_left
        intro p hp
        rw [rowsOf_cons, if_neg ?hne]
        case hne =>
          intro he
          exact hc (he ▸ (List.mem_map.mpr ⟨p, hp, rfl⟩))
      · -- the new category's singleton entry and the remaining fresh tail
        simp only [List.map_cons, List.map_nil, List.singleton_append]
        congr 1
        · have hrr : rowsOf i.1
              (rest.filter (fun j => !decide (j.1 ∈ res.map Prod.fst)))
              = rowsOf i.1 rest := by
            apply rowsOf_filter
            intro j hj
            simp only [Bool.not_eq_true']
            rw [decide_eq_false_iff_not]
            intro hmem
            exact hc (hj ▸ hmem)
          rw [hrr]
        · congr 1
          rw [List.filter_filter]
          apply List.filter_congr
          intro j hj
          by_cases h1 : j.1 = i.1 <;> by_cases h2 : j.1 ∈ res.map Prod.fst <;>
            simp [h1, h2]

/-- Closed form of `build_results`: one entry per category in order of
first appearance, holding all of that category's rows in catalog order. -/
theorem build_results_characterization
    (fetch : String → Except Unit (List RawRec)) (today : Date)
    (catalog : List (String × List (String × Plans))) :
    build_results fetch today catalog
      = specResults (catalogItems fetch today catalog) := by
  rw [build_results_eq_runItems, runItems_spec _ [] (by simp)]
  simp only [List.map_nil, List.nil_append]
  congr 1
  rw [show (fun i : String × ReportRow => !decide (i.1 ∈ ([] : List String)))
      = fun i => true from by funext i; simp]
  rw [List.filter_true]

/-- Every entry of `specResults` carries exactly the rows of its category,
and its category key occurs among the items. -/
theorem specResults_mem (items : List (String × ReportRow)) (c : String)
    (rows : List ReportRow) :
    (c, rows) ∈ specResults items
      → rows = rowsOf c items ∧ c ∈ items.map Prod.fst := by
  induction items using specResults.induct with
  | case1 =>
    intro h
    rw [specResults_nil] at h
    cases h
  | case2 i rest ih =>
    intro h
    rw [specResults_cons] at h
    rcases List.mem_cons.mp h with he | ht
    · have hc : c = i.1 := congrArg Prod.fst he
      have hrows : rows = i.2 :: rowsOf i.1 rest := congrArg Prod.snd he
      constructor
      · rw [hrows, rowsOf_cons, if_pos hc.symm, hc]
      · rw [List.map_cons, hc]
        exact List.mem_cons_self _ _
    · obtain ⟨hrows, hkey⟩ := ih ht
      have hcne : ¬ c = i.1 := by
        rcases List.mem_map.mp hkey with ⟨j, hj, hjc⟩
        have := (List.mem_filter.mp hj).2
        simp only [Bool.not_eq_true'] at this
        rw [decide_eq_false_iff_not] at this
        rw [← hjc]
        exact this
      constructor
      · rw [hrows, rowsOf_filter c _ _ (fun j hj => by simp [hj, hcne]),
          rowsOf_cons, if_neg (fun he => hcne he.symm)]
      · rw [List.map_cons]
        refine List.mem_cons_of_mem _ ?_
        rcases List.mem_map.mp hkey with ⟨j, hj, hjc⟩
        exact List.mem_map.mpr ⟨j, (List.mem_filter.mp hj).1, hjc⟩

/-- A category key occurs at most once per AMC when that AMC's category
keys are distinct. -/
theorem filter_key_length_le_one (c : String) (cats : List (String × Plans))
    (h : (cats.map Prod.fst).Nodup) :
    (cats.filter (fun q => decide (q.1 = c))).length ≤ 1 := by
  induction cats with
  | nil => simp
  | cons q t ih =>
    rw [List.map_cons, List.nodup_cons] at h
    rw [List.filter_cons]
    by_cases hq : q.1 = c
    · rw [if_pos (by simp [hq])]
      have hnilf : t.filter (fun q => decide (q.1 = c)) = [] := by
        rw [List.filter_eq_nil_iff]
        intro a ha hdec
        rw [decide_eq_true_eq] at hdec
        apply h.1
        rw [hq, ← hdec]
        exact List.mem_map.mpr ⟨a, ha, rfl⟩
      rw [hnilf]
      simp
    · rw [if_neg (by simp [hq])]
      exact ih h.2

/-- The AMC column of a category's rows, read off the catalog. -/
theorem rowsOf_catalogItems_amc (fetch : String → Except Unit (List RawRec))
    (today : Date) (catalog : List (String × List (String × Plans)))
    (c : String) :
    (rowsOf c (catalogItems fetch today catalog)).map ReportRow.amc
      = catalog.flatMap
          (fun p => (p.2.filter (fun q => decide (q.1 = c))).map
            (fun _ => p.1)) := by
  induction catalog with
  | nil => rfl
  | cons p t ih =>
    simp only [catalogItems, List.flatMap_cons, rowsOf, List.filter_append,
      List.map_append] at *
    rw [ih]
    congr 1
    rw [List.filter_map, List.map_map, List.map_map]
    congr 1

/-- With distinct AMC names and distinct category keys per AMC, a
category's rows name each AMC at most once. -/
theorem catalogItems_amc_nodup (fetch : String → Except Unit (List RawRec))
    (today : Date) (catalog : List (String × List (String × Plans)))
    (c : String)
    (h1 : (catalog.map Prod.fst).Nodup)
    (h2 : ∀ p ∈ catalog, (p.2.map Prod.fst).Nodup) :
    ((rowsOf c (catalogItems fetch today catalog)).map ReportRow.amc).Nodup := by
  rw [rowsOf_catalogItems_amc]
  induction catalog with
  | nil => simp
  | cons p t ih =>
    rw [List.map_cons, List.nodup_cons] at h1
    rw [List.flatMap_cons, List.nodup_append]
    refine ⟨?_, ?_, ?_⟩
    · have hl := filter_key_length_le_one c p.2 (h2 p (List.mem_cons_self p t))
      cases hfil : p.2.filter (fun q => decide (q.1 = c)) with
      | nil => simp
      | cons x u =>
        rw [hfil, List.length_cons] at hl
        have hu : u = [] := List.eq_nil_of_length_eq_zero (by omega)
        subst hu
        simp
    · exact ih h1.2 (fun p hp => h2 p (List.mem_cons_of_mem _ hp))
    · intro a ha hb
      have ha2 : a = p.1 := by
        rcases List.mem_map.mp ha with ⟨x, hx, hxa⟩
        exact hxa.symm
      rcases List.mem_flatMap.mp hb with ⟨p', hp', hmem⟩
      rcases List.mem_map.mp hmem with ⟨y, hy, hya⟩
      apply h1.1
      rw [← ha2, ← hya]
      exact List.mem_map.mpr ⟨p', hp', hya ▸ rfl⟩

/-- C9: the report holds one entry per category in order of first
appearance in the catalog, each entry's rows are exactly that category's
(AMC, plans) items in catalog iteration order carrying one result per plan,
and — the catalog being keyed by distinct AMC names with distinct category
keys per AMC, as a Python dict guarantees — each (AMC, category) pair
yields exactly one row (no AMC repeats inside a category's rows). -/
theorem build_results_report_shape (fetch : String → Except Unit (List RawRec))
    (today : Date) (catalog : List (String × List (String × Plans))) :
    build_results fetch today catalog
      = specResults (catalogItems fetch today catalog)
    ∧ (∀ c rows, (c, rows) ∈ build_results fetch today catalog →
        rows = rowsOf c (catalogItems fetch today catalog))
    ∧ ((catalog.map Prod.fst).Nodup →
        (∀ p ∈ catalog, (p.2.map Prod.fst).Nodup) →
        ∀ c rows, (c, rows) ∈ build_results fetch today catalog →
          (rows.map ReportRow.amc).Nodup) := by
  have hchar := build_results_characterization fetch today catalog
  refine ⟨hchar, ?_, ?_⟩
  · intro c rows h
    rw [hchar] at h
    exact (specResults_mem _ c rows h).1
  · intro hn1 hn2 c rows h
    rw [hchar] at h
    rw [(specResults_mem _ c rows h).1]
    exact catalogItems_amc_nodup fetch today catalog c hn1 hn2

/-- C9 witness: the shape property applied to a concrete one-AMC catalog. -/
theorem build_results_report_shape_witness :
    (([ReportRow.mk ("AMC1") none none].map ReportRow.amc)).Nodup :=
  (build_results_report_shape (fun _ => Except.error ()) ⟨2024, 3, 15⟩
      [("AMC1", [("Equity", Plans.mk (some ("123")) none)])]).2.2
    (by decide) (by decide) ("Equity") [ReportRow.mk ("AMC1") none none]
    (by decide)

/-- C1: a missing identifier, a fetch failure, or an empty payload each
record the unavailable marker for that one plan; a row's contents depend on
the fetch outcomes of its own plan codes only, so two runs whose fetches
agree away from a failing code produce identical rows for every item not
using that code; and either run still produces the full report shape (the
loop continues past failures). -/
theorem build_results_isolation
    (F G : String → Except Unit (List RawRec)) (today : Date)
    (catalog : List (String × List (String × Plans))) (c₀ : String)
    (hag : ∀ c, c ≠ c₀ → F c = G c) :
    item_result F today none = none
    ∧ (∀ e, F c₀ = Except.error e → item_result F today (some c₀) = none)
    ∧ (∀ rs, F c₀ = Except.ok rs → rs = [] →
        item_result F today (some c₀) = none)
    ∧ (∀ amc pl, pl.direct ≠ some c₀ → pl.regular ≠ some c₀ →
        mkRow F today amc pl = mkRow G today amc pl)
    ∧ build_results F today catalog = specResults (catalogItems F today catalog)
    ∧ build_results G today catalog
        = specResults (catalogItems G today catalog) := by
  have hitem : ∀ code : Option String, code ≠ some c₀ →
      item_result F today code = item_result G today code := by
    intro code hcode
    cases code with
    | none => rfl
    | some c =>
      have hc : c ≠ c₀ := fun h => hcode (by rw [h])
      unfold item_result
      dsimp only
      rw [hag c hc]
  refine ⟨rfl, ?_, ?_, ?_, build_results_characterization F today catalog,
    build_results_characterization G today catalog⟩
  · intro e he
    unfold item_result
    dsimp only
    rw [he]
  · intro rs h hrs
    unfold item_result
    dsimp only
    rw [h, hrs]
    rfl
  · intro amc pl hd hr
    unfold mkRow
    rw [hitem pl.direct hd, hitem pl.regular hr]

/-- C1 witness: the isolation theorem applied to two concrete fetch
functions differing only at the failing code "X". -/
theorem build_results_isolation_witness :
    mkRow (fun c => if c = "X" then Except.error () else Except.ok [])
        ⟨2024, 3, 15⟩ ("AMC1") (Plans.mk (some ("OK")) none)
      = mkRow (fun _ => Except.ok ([] : List RawRec))
        ⟨2024, 3, 15⟩ ("AMC1") (Plans.mk (some ("OK")) none) :=
  (build_results_isolation
      (fun c => if c = "X" then Except.error () else Except.ok [])
      (fun _ => Except.ok []) ⟨2024, 3, 15⟩ [] "X"
      (by intro c hc; simp [hc])).2.2.2.1
    ("AMC1") (Plans.mk (some ("OK")) none) (by decide) (by decide)

/-- The per-item result computed against an explicit, pre-computed window
(the hoisted form of the redesign note). -/
def item_result_on_window (fetch : String → Except Unit (List RawRec))
    (w : Date × Date) (code : Option String) : Option ℚ :=
  match code with
  | none => none
  | some c =>
    match fetch c with
    | Except.error _ => none
    | Except.ok rs =>
      if rs.isEmpty then none
      else rollingReturnOnWindow (get_nav_data rs) w

/-- The orchestration loop with the reference window computed once per run
and reused for every item. -/
def build_results_hoisted (fetch : String → Except Unit (List RawRec))
    (today : Date) (catalog : List (String × List (String × Plans))) :
    List (String × List ReportRow) :=
  let w := refWindow today
  catalog.foldl
    (fun res p =>
      p.2.foldl (fun res2 q => addRow res2 q.1
        (ReportRow.mk p.1
          (item_result_on_window fetch w q.2.direct)
          (item_result_on_window fetch w q.2.regular))) res)
    []

/-- C7: per-item recomputation of the reference window is equivalent to
computing it once per run and reusing it — the window is a pure function of
the run's current date, so every item of a run sees the identical
(start_date, end_date) pair and the two loop forms produce identical
reports. -/
theorem build_results_window_once (fetch : String → Except Unit (List RawRec))
    (today : Date) (catalog : List (String × List (String × Plans))) :
    (∀ s : List Obs,
      monthly_rolling_return s today = rollingReturnOnWindow s (refWindow today))
    ∧ build_results fetch today catalog
        = build_results_hoisted fetch today catalog :=
  ⟨fun _ => rfl, rfl⟩

/-- An IEEE-754 double as the NAV arithmetic of lines 77-83 sees it: a
finite value (carried exactly), one of the two infinities, or NaN.
Finite NAVs such as `1e308` pass `pd.to_numeric` and `dropna`, and the
string "inf" parses to an infinity, so all four shapes reach the
calculator. -/
inductive PyFloat where
  | finite (q : ℚ)
  | pinf
  | ninf
  | nan
deriving DecidableEq

/-- Largest finite double, `DBL_MAX = (2^53 - 1) * 2^971`. -/
def maxDbl : ℚ := (2 ^ 53 - 1) * 2 ^ 971

/-- Exact results inside the double range stay finite; results beyond it
overflow to the signed infinity, as IEEE arithmetic silently does in
Python. -/
def clampDbl (q : ℚ) : PyFloat :=
  if maxDbl < q then .pinf
  else if q < -maxDbl then .ninf
  else .finite q

/-- Float subtraction: finite-range arithmetic with overflow, and IEEE
propagation of infinities and NaN. -/
def PyFloat.sub : PyFloat → PyFloat → PyFloat
  | .finite a, .finite b => clampDbl (a - b)
  | .nan, _ => .nan
  | _, .nan => .nan
  | .pinf, .pinf => .nan
  | .ninf, .ninf => .nan
  | .pinf, _ => .pinf
  | .ninf, _ => .ninf
  | _, .pinf => .ninf
  | _, .ninf => .pinf

/-- Float division. The zero-divisor cases (where Python would raise
`ZeroDivisionError`) sit behind the calculator's `start_nav == 0` guard and
are unreachable there; the model marks them NaN. Signed zero is not
modelled: a finite value divided by an infinity is plain `0.0`. -/
def PyFloat.div : PyFloat → PyFloat → PyFloat
  | .nan, _ => .nan
  | _, .nan => .nan
  | .finite a, .finite b => if b = 0 then .nan else clampDbl (a / b)
  | .pinf, .finite b => if 0 < b then .pinf else if b < 0 then .ninf else .nan
  | .ninf, .finite b => if 0 < b then .ninf else if b < 0 then .pinf else .nan
  | .finite _, .pinf => .finite 0
  | .finite _, .ninf => .finite 0
  | _, _ => .nan

/-- Float multiplication with IEEE sign and special-value rules
(`inf * 0 = NaN`). -/
def PyFloat.mul : PyFloat → PyFloat → PyFloat
  | .nan, _ => .nan
  | _, .nan => .nan
  | .finite a, .finite b => clampDbl (a * b)
  | .pinf, .finite b => if 0 < b then .pinf else if b < 0 then .ninf else .nan
  | .finite a, .pinf => if 0 < a then .pinf else if a < 0 then .ninf else .nan
  | .ninf, .finite b => if 0 < b then .ninf else if b < 0 then .pinf else .nan
  | .finite a, .ninf => if 0 < a then .ninf else if a < 0 then .pinf else .nan
  | .pinf, .pinf => .pinf
  | .ninf, .ninf => .pinf
  | _, _ => .ninf

/-- Python `x == 0` on a float: true only for a finite zero (NaN and the
infinities compare unequal to zero). -/
def PyFloat.eqZero : PyFloat → Bool
  | .finite q => decide (q = 0)
  | _ => false

/-- A float is finite when it is neither infinite nor NaN. -/
def PyFloat.isFinite : PyFloat → Bool
  | .finite _ => true
  | _ => false

/-- One NAV observation with its price as the double the DataFrame holds. -/
structure ObsF where
  date : Date
  nav : PyFloat
deriving DecidableEq

/-- The as-of lookup of lines 59-64 over float-valued observations. -/
def last_nav_on_or_before_float (s : List ObsF) (target : Date) : Option ObsF :=
  (s.filter (fun o => dateLe o.date target)).getLast?

/-- Lines 66-84 over float-valued observations: the same lookups and
guards, with the annualization arithmetic carried out in double
arithmetic (`days` is an exact small integer, so its conversion to float
is exact). -/
def monthly_rolling_return_float (s : List ObsF) (today : Date) : Option PyFloat :=
  match last_nav_on_or_before_float s (lastDayPrevMonth today),
      last_nav_on_or_before_float s (lastDayTwoMonthsAgo today) with
  | some t1, some t0 =>
      if toOrdinal t1.date - toOrdinal t0.date ≤ 0 ∨ t0.nav.eqZero = true then none
      else some (((t1.nav.sub t0.nav).div t0.nav).mul
        ((PyFloat.finite 365).div
          (PyFloat.finite ((toOrdinal t1.date - toOrdinal t0.date : Int) : ℚ))))
  | _, _ => none

/-- Reduction of the float calculator once both lookups are resolved. -/
theorem monthly_rolling_return_float_eq (s : List ObsF) (today : Date)
    (t1 t0 : ObsF)
    (h1 : last_nav_on_or_before_float s (lastDayPrevMonth today) = some t1)
    (h0 : last_nav_on_or_before_float s (lastDayTwoMonthsAgo today) = some t0) :
    monthly_rolling_return_float s today
      = if toOrdinal t1.date - toOrdinal t0.date ≤ 0 ∨ t0.nav.eqZero = true
        then none
        else some (((t1.nav.sub t0.nav).div t0.nav).mul
          ((PyFloat.finite 365).div
            (PyFloat.finite ((toOrdinal t1.date - toOrdinal t0.date : Int) : ℚ)))) := by
  unfold monthly_rolling_return_float
  rw [h1, h0]

/-- Reduction of the float calculator when the end-of-window lookup is
absent. -/
theorem monthly_rolling_return_float_none_t1 (s : List ObsF) (today : Date)
    (h1 : last_nav_on_or_before_float s (lastDayPrevMonth today) = none) :
    monthly_rolling_return_float s today = none := by
  unfold monthly_rolling_return_float
  rw [h1]

/-- Reduction of the float calculator when the start-of-window lookup is
absent. -/
theorem monthly_rolling_return_float_none_t0 (s : List ObsF) (today : Date)
    (h0 : last_nav_on_or_before_float s (lastDayTwoMonthsAgo today) = none) :
    monthly_rolling_return_float s today = none := by
  unfold monthly_rolling_return_float
  rw [h0]
  cases last_nav_on_or_before_float s (lastDayPrevMonth today) <;> rfl

/-- C3 counterexample: two NAVs near the top of the double range
(`-2^1023` and `2^1023`, about `±8.99e307` — exactly representable doubles
that `pd.to_numeric` and `dropna` admit) pass every guard, the subtraction
at line 83 overflows to `+inf`, and the calculator returns `-inf` — a
numeric, non-finite value stored into the result field, so the result is
neither the unavailable marker nor a finite number. -/
theorem monthly_rolling_return_float_overflow :
    monthly_rolling_return_float
        [ObsF.mk ⟨2024, 1, 31⟩ (PyFloat.finite (-(2 ^ 1023) : ℚ)),
          ObsF.mk ⟨2024, 2, 29⟩ (PyFloat.finite ((2 ^ 1023 : ℚ)))]
        ⟨2024, 3, 15⟩
      = some PyFloat.ninf
    ∧ PyFloat.ninf.isFinite = false := by
  have hpos : (0:ℚ) < 2 ^ 1023 := by positivity
  refine ⟨?_, rfl⟩
  have e1 : last_nav_on_or_before_float
      [ObsF.mk ⟨2024, 1, 31⟩ (PyFloat.finite (-(2 ^ 1023) : ℚ)),
        ObsF.mk ⟨2024, 2, 29⟩ (PyFloat.finite ((2 ^ 1023 : ℚ)))]
      (lastDayPrevMonth ⟨2024, 3, 15⟩)
      = some (ObsF.mk ⟨2024, 2, 29⟩ (PyFloat.finite ((2 ^ 1023 : ℚ)))) := rfl
  have e0 : last_nav_on_or_before_float
      [ObsF.mk ⟨2024, 1, 31⟩ (PyFloat.finite (-(2 ^ 1023) : ℚ)),
        ObsF.mk ⟨2024, 2, 29⟩ (PyFloat.finite ((2 ^ 1023 : ℚ)))]
      (lastDayTwoMonthsAgo ⟨2024, 3, 15⟩)
      = some (ObsF.mk ⟨2024, 1, 31⟩ (PyFloat.finite (-(2 ^ 1023) : ℚ))) := rfl
  rw [monthly_rolling_return_float_eq _ _ _ _ e1 e0]
  dsimp only
  rw [show toOrdinal ⟨2024, 2, 29⟩ - toOrdinal ⟨2024, 1, 31⟩ = (29 : Int)
    from by decide]
  rw [if_neg ?hguard]
  case hguard =>
    push_neg
    refine ⟨by norm_num, ?_⟩
    simp only [PyFloat.eqZero, decide_eq_true_eq, Bool.not_eq_true,
      decide_eq_false_iff_not]
    intro h
    linarith
  have hsub : PyFloat.sub (PyFloat.finite ((2 ^ 1023 : ℚ)))
      (PyFloat.finite (-(2 ^ 1023) : ℚ)) = PyFloat.pinf := by
    simp only [PyFloat.sub]
    unfold clampDbl maxDbl
    rw [if_pos ?hov]
    case hov =>
      have hp : (0:ℚ) < 2 ^ 971 := by positivity
      have hq : ((2:ℚ) ^ 53 - 1) < 2 ^ 53 := by norm_num
      have hkey := mul_lt_mul_of_pos_right hq hp
      have hsplit : (2:ℚ) ^ 53 * 2 ^ 971 = 2 ^ 1023 + 2 ^ 1023 := by
        rw [← pow_add, show (53:ℕ) + 971 = 1023 + 1 from rfl, pow_succ,
          mul_two]
      linarith
  have hdiv : PyFloat.div PyFloat.pinf
      (PyFloat.finite (-(2 ^ 1023) : ℚ)) = PyFloat.ninf := by
    simp only [PyFloat.div]
    rw [if_neg (by linarith), if_pos (by linarith)]
  have h32 : (32:ℚ) ≤ 2 ^ 971 := by
    calc (32:ℚ) = 2 ^ 5 := by norm_num
    _ ≤ 2 ^ 971 := by
      apply pow_le_pow_right₀ (by norm_num) (by norm_num)
  have hmaxlb : (2:ℚ) ^ 971 ≤ (2 ^ 53 - 1) * 2 ^ 971 := by
    nth_rewrite 1 [← one_mul ((2:ℚ) ^ 971)]
    exact mul_le_mul_of_nonneg_right (by norm_num) (by positivity)
  have hc29 : ((29 : Int) : ℚ) = (29 : ℚ) := by push_cast; ring
  have h365 : PyFloat.div (PyFloat.finite 365)
      (PyFloat.finite ((29 : Int) : ℚ))
      = PyFloat.finite (365 / ((29 : Int) : ℚ)) := by
    simp only [PyFloat.div]
    rw [hc29, if_neg (by norm_num)]
    unfold clampDbl maxDbl
    have hsmall : (365:ℚ) / 29 < 32 := by norm_num
    have hsmall2 : (0:ℚ) < 365 / 29 := by norm_num
    rw [if_neg (by linarith), if_neg (by linarith)]
  have hmul : PyFloat.mul PyFloat.ninf
      (PyFloat.finite (365 / ((29 : Int) : ℚ))) = PyFloat.ninf := by
    simp only [PyFloat.mul]
    rw [hc29, if_pos (by norm_num)]
  rw [hsub, hdiv, h365, hmul]

/-- C3 (amended): the calculator is a total function (no exception can
escape: the guards run before any division, so the divisions Python would
raise on are unreachable); the unavailable marker is returned exactly when
a lookup is absent, the elapsed days are non-positive, or the start NAV
compares equal to zero; and any returned value is the double-arithmetic
value of the annualization formula — which is not necessarily finite:
extreme or infinite admitted prices overflow to a signed infinity or NaN
in the result field, blanked only later by the renderer. -/
theorem monthly_rolling_return_float_spec (s : List ObsF) (today : Date) :
    (∀ r, monthly_rolling_return_float s today = some r →
      ∃ t1 t0, last_nav_on_or_before_float s (lastDayPrevMonth today) = some t1
        ∧ last_nav_on_or_before_float s (lastDayTwoMonthsAgo today) = some t0
        ∧ 0 < toOrdinal t1.date - toOrdinal t0.date
        ∧ t0.nav.eqZero = false
        ∧ r = ((t1.nav.sub t0.nav).div t0.nav).mul
            ((PyFloat.finite 365).div
              (PyFloat.finite ((toOrdinal t1.date - toOrdinal t0.date : Int) : ℚ))))
    ∧ (monthly_rolling_return_float s today = none ↔
        last_nav_on_or_before_float s (lastDayPrevMonth today) = none
        ∨ last_nav_on_or_before_float s (lastDayTwoMonthsAgo today) = none
        ∨ ∃ t1 t0,
            last_nav_on_or_before_float s (lastDayPrevMonth today) = some t1
            ∧ last_nav_on_or_before_float s (lastDayTwoMonthsAgo today) = some t0
            ∧ (toOrdinal t1.date - toOrdinal t0.date ≤ 0
              ∨ t0.nav.eqZero = true)) := by
  cases h1 : last_nav_on_or_before_float s (lastDayPrevMonth today) with
  | none =>
    constructor
    · intro r hr
      rw [monthly_rolling_return_float_none_t1 s today h1] at hr
      cases hr
    · constructor
      · intro _
        exact Or.inl rfl
      · intro _
        exact monthly_rolling_return_float_none_t1 s today h1
  | some t1 =>
    cases h0 : last_nav_on_or_before_float s (lastDayTwoMonthsAgo today) with
    | none =>
      constructor
      · intro r hr
        rw [monthly_rolling_return_float_none_t0 s today h0] at hr
        cases hr
      · constructor
        · intro _
          exact Or.inr (Or.inl rfl)
        · intro _
          exact monthly_rolling_return_float_none_t0 s today h0
    | some t0 =>
      have hm := monthly_rolling_return_float_eq s today t1 t0 h1 h0
      by_cases hc : toOrdinal t1.date - toOrdinal t0.date ≤ 0
          ∨ t0.nav.eqZero = true
      · constructor
        · intro r hr
          rw [hm, if_pos hc] at hr
          cases hr
        · constructor
          · intro _
            exact Or.inr (Or.inr ⟨t1, t0, rfl, rfl, hc⟩)
          · intro _
            rw [hm, if_pos hc]
      · constructor
        · intro r hr
          rw [hm, if_neg hc] at hr
          push_neg at hc
          have hz : t0.nav.eqZero = false := by
            simpa using hc.2
          exact ⟨t1, t0, rfl, rfl, by omega, hz, (Option.some_inj.mp hr).symm⟩
        · constructor
          · intro hn
            rw [hm, if_neg hc] at hn
            cases hn
          · rintro (h | h | ⟨t1', t0', e1, e2, hcond⟩)
            · cases h
            · cases h
            · cases Option.some_inj.mp e1
              cases Option.some_inj.mp e2
              exact absurd hcond hc

/-- C3 witness: the empty series maps to the unavailable marker through
the absent-lookup clause of the amended specification. -/
theorem monthly_rolling_return_float_spec_witness :
    monthly_rolling_return_float [] ⟨2024, 3, 15⟩ = none :=
  (monthly_rolling_return_float_spec [] ⟨2024, 3, 15⟩).2.mpr (Or.inl rfl)
